import Mathlib

/-!
Verification of the jmix-js Secure Payload Pipeline.

This file shallowly embeds the core of the repository:
`JmixBuilder.computePayloadHash`, `JmixBuilder.packageToDirectory`,
`JmixBuilder.packageEncryptedToDirectory`, `JmixBuilder.decryptEnvelope`,
`JmixBuilder.isLikelyDicom`, `PayloadEncryptor.encryptTar` and
`PayloadDecryptor.decryptToBuffer`.

Modelling conventions:
* Bytes are `Nat` (values < 256 in practice); byte buffers are `List Nat`.
* A payload file is its POSIX path components plus its content; the
  filesystem of an envelope directory is a list of (path, bytes) pairs.
* The cryptographic primitives the code calls (tweetnacl `scalarMult`,
  Node `hkdfSync`, AES-256-GCM, SHA-256), and the external `tar` library,
  are modelled at their interface boundary as explicit function
  parameters; the base64 boundary is modelled as raw bytes (base64
  encode/decode is a bijection between the two representations).
* Randomness (ephemeral key, IV) is modelled as explicit inputs.
-/

deriving instance DecidableEq for Except

/-- A payload file: POSIX path components (forward-slash pieces, as produced
by `path.relative(..).split(path.sep)`) plus raw byte content. -/
structure FileEntry where
  path : List String
  content : List Nat
deriving DecidableEq

/-- The forward-slash joined relative path, as produced by
`path.posix.join(...)` in `computePayloadHash`. -/
def FileEntry.relPathStr (f : FileEntry) : String :=
  String.intercalate "/" f.path

/-- UTF-8 encoding of one character, as `Buffer.from(s, 'utf-8')` encodes it. -/
def utf8EncodeChar (c : Char) : List Nat :=
  let n := c.toNat
  if n < 128 then [n]
  else if n < 2048 then [192 + n / 64, 128 + n % 64]
  else if n < 65536 then [224 + n / 4096, 128 + n / 64 % 64, 128 + n % 64]
  else [240 + n / 262144, 128 + n / 4096 % 64, 128 + n / 64 % 64, 128 + n % 64]

/-- UTF-8 bytes of a string (`Buffer.from(str, 'utf-8')`). -/
def utf8Bytes (s : String) : List Nat :=
  (s.data.map utf8EncodeChar).flatten

/-- One lowercase hex digit, as produced by Node `hash.digest('hex')`. -/
def hexDigitChar (n : Nat) : Char :=
  if n < 10 then Char.ofNat (48 + n) else Char.ofNat (87 + n)

/-- Lowercase hex rendering of a byte buffer (`digest('hex')`). -/
def hexOfBytes (bs : List Nat) : List Char :=
  (bs.map (fun b => [hexDigitChar (b / 16), hexDigitChar (b % 16)])).flatten

/-- Lexicographic comparison of char lists by code point; this is the
order JavaScript string `<` induces on the (BMP) strings the builder
compares in its sort callback. -/
def charListLt : List Char → List Char → Bool
  | _, [] => false
  | [], _ :: _ => true
  | a :: as, b :: bs =>
    if a.toNat < b.toNat then true
    else if b.toNat < a.toNat then false
    else charListLt as bs

/-- JavaScript string `a < b`. -/
def strLtB (a b : String) : Bool := charListLt a.data b.data

/-- JavaScript string `a <= b` (total order: not `b < a`). -/
def strLeB (a b : String) : Bool := !(strLtB b a)

/-- Order on payload entries used by the `.sort` comparator in
`computePayloadHash`: by joined relative path. -/
def entryLe (a b : FileEntry) : Prop := strLeB a.relPathStr b.relPathStr = true

/-- Strict version of `entryLe`. -/
def entryLt (a b : FileEntry) : Prop := strLtB a.relPathStr b.relPathStr = true

instance : DecidableRel entryLe := fun a b => by unfold entryLe; infer_instance

instance : DecidableRel entryLt := fun a b => by unfold entryLt; infer_instance

/-- The `.sort((a, b) => a.rel < b.rel ? -1 : a.rel > b.rel ? 1 : 0)` step. -/
def sortEntries (t : List FileEntry) : List FileEntry :=
  List.insertionSort entryLe t

/-- The bytes one entry contributes to the digest: UTF-8 of
`relativePath + "\n"` followed by the raw file bytes. -/
def entryRecord (f : FileEntry) : List Nat :=
  utf8Bytes (f.relPathStr ++ "\n") ++ f.content

/-- The accumulated byte stream of the single streaming SHA-256 context:
for each entry two successive `hash.update` calls. -/
def hashStream (entries : List FileEntry) : List Nat :=
  entries.foldl (fun acc f => acc ++ utf8Bytes (f.relPathStr ++ "\n") ++ f.content) []

/-- `JmixBuilder.computePayloadHash`: walk the files, sort by
forward-slash relative path, stream `rel + "\n"` then the bytes into one
SHA-256 context, and format `sha256:<lowercase hex>`.  The SHA-256
compression itself is the Node `crypto` primitive, passed as `sha256`. -/
def computePayloadHash (sha256 : List Nat → List Nat) (tree : List FileEntry) : String :=
  "sha256:" ++ String.mk (hexOfBytes (sha256 (hashStream (sortEntries tree))))

/-- The cryptographic primitives used by `PayloadEncryptor` /
`PayloadDecryptor`, at their interface boundary: `nacl.scalarMult.base`,
`nacl.scalarMult`, Node `hkdfSync`, and AES-256-GCM encrypt/decrypt
(decrypt returns `none` exactly when `decipher.final()` rejects the tag). -/
structure CryptoPrims where
  scalarMultBase : List Nat → List Nat
  scalarMult : List Nat → List Nat → List Nat
  hkdf : List Nat → List Nat → List Nat → Nat → List Nat
  aesGcmEnc : List Nat → List Nat → List Nat → List Nat × List Nat
  aesGcmDec : List Nat → List Nat → List Nat → List Nat → Option (List Nat)

/-- The error exits of the crypto layer, one per `throw` site in
`PayloadEncryptor.encryptTar` / `PayloadDecryptor.decryptToBuffer`, plus
the AEAD tag rejection raised by `decipher.final()`. -/
inductive CryptoError where
  | invalidRecipientPublicKey
  | invalidEphemeralPublicKey
  | invalidRecipientPrivateKey
  | invalidIvLength
  | invalidAuthTagLength
  | authenticationFailed
deriving DecidableEq

/-- The `EncryptResult` / `manifest.security.encryption` material
(ephemeral public key, IV, auth tag; base64 at rest, raw bytes here). -/
structure EncMaterial where
  ephemeralPublicKey : List Nat
  iv : List Nat
  authTag : List Nat
deriving DecidableEq

/-- The fixed HKDF info string `"JMIX-Payload-Encryption"`. -/
def hkdfInfo : List Nat := utf8Bytes "JMIX-Payload-Encryption"

/-- `PayloadEncryptor.encryptTar`: reject a recipient public key that is
not 32 bytes, generate an ephemeral key pair (`ephSecret` is the fresh
randomness; its public half is `scalarMultBase ephSecret`), compute the
X25519 shared secret, derive the AES key with HKDF-SHA256 (empty salt,
fixed info), and encrypt with AES-256-GCM under a fresh 12-byte IV
(`ivRandom`). -/
def encryptTar (prims : CryptoPrims) (ephSecret ivRandom : List Nat)
    (tarData recipientPub : List Nat) :
    Except CryptoError (List Nat × EncMaterial) :=
  if recipientPub.length ≠ 32 then .error .invalidRecipientPublicKey
  else
    let shared := prims.scalarMult ephSecret recipientPub
    let key := prims.hkdf shared [] hkdfInfo 32
    let encd := prims.aesGcmEnc key ivRandom tarData
    .ok (encd.1, ⟨prims.scalarMultBase ephSecret, ivRandom, encd.2⟩)

/-- `PayloadDecryptor.decryptToBuffer`: validate the four material
lengths in source order, recompute the shared secret and HKDF key, then
AES-256-GCM decrypt; a tag rejection becomes `authenticationFailed` and
no plaintext is produced. -/
def decryptToBuffer (prims : CryptoPrims) (ciphertext ephPub iv tag recipientPriv : List Nat) :
    Except CryptoError (List Nat) :=
  if ephPub.length ≠ 32 then .error .invalidEphemeralPublicKey
  else if recipientPriv.length ≠ 32 then .error .invalidRecipientPrivateKey
  else if iv.length ≠ 12 then .error .invalidIvLength
  else if tag.length ≠ 16 then .error .invalidAuthTagLength
  else
    let shared := prims.scalarMult recipientPriv ephPub
    let key := prims.hkdf shared [] hkdfInfo 32
    match prims.aesGcmDec key iv ciphertext tag with
    | some pt => .ok pt
    | none => .error .authenticationFailed

/-- Sealing a payload tree: archive it (node-tar, modelled by `pack`) and
encrypt the archive, as `packageEncryptedToDirectory` does. -/
def sealTree (prims : CryptoPrims) (pack : List FileEntry → List Nat)
    (ephSecret ivRandom : List Nat) (tree : List FileEntry) (recipientPub : List Nat) :
    Except CryptoError (List Nat × EncMaterial) :=
  encryptTar prims ephSecret ivRandom (pack tree) recipientPub

/-- The error exits of the pipeline layer (`JmixBuilder`). -/
inductive PipelineError where
  | missingEncryptionMetadata
  | cryptoFailure (e : CryptoError)
  | archiveCorrupt
  | integrityViolation (expected computed : String)
  | missingRecipientKey
  | missingPayloadHash
deriving DecidableEq

/-- Opening a sealed archive back to a payload tree: decrypt then
extract (node-tar `tar.x`, modelled by `unpack`, which fails on a
malformed archive). -/
def openSealed (prims : CryptoPrims) (unpack : List Nat → Option (List FileEntry))
    (ciphertext : List Nat) (enc : EncMaterial) (recipientPriv : List Nat) :
    Except PipelineError (List FileEntry) :=
  match decryptToBuffer prims ciphertext enc.ephemeralPublicKey enc.iv enc.authTag recipientPriv with
  | .error e => .error (.cryptoFailure e)
  | .ok tarBuf =>
    match unpack tarBuf with
    | none => .error .archiveCorrupt
    | some tree => .ok tree

/-- `manifest.security`: the stored payload digest and, when sealed, the
encryption material (`Option` models the field being absent). -/
structure Security where
  payloadHash : Option String
  encryption : Option EncMaterial
deriving DecidableEq

/-- The envelope directory state: a list of (path components, bytes)
entries rooted at the `<envelope_id>.JMIX` directory. -/
abbrev FS := List (List String × List Nat)

/-- `fs.writeFile` / `fs.copyFile`: replace any entry at the path, append
the new one. -/
def fsWrite (fs : FS) (p : List String) (c : List Nat) : FS :=
  fs.filter (fun e => e.1 ≠ p) ++ [(p, c)]

/-- `fs.rm(path, force)`. -/
def fsRemove (fs : FS) (p : List String) : FS :=
  fs.filter (fun e => e.1 ≠ p)

/-- `fs.rm(dir, recursive, force)`: drop every entry whose first path
component is the directory. -/
def fsRemoveDir (fs : FS) (d : String) : FS :=
  fs.filter (fun e => e.1.head? ≠ some d)

/-- Path existence in the envelope directory. -/
def fsHas (fs : FS) (p : List String) : Bool :=
  fs.any (fun e => e.1 = p)

/-- Writing a payload tree under a root directory (the copy loop, or
`tar.x` extraction). -/
def fsWriteTree (fs : FS) (root : String) (tree : List FileEntry) : FS :=
  tree.foldl (fun a f => fsWrite a (root :: f.path) f.content) fs

/-- ASCII lowercasing of one character (`String.prototype.toLowerCase`
on the ASCII extensions the classifier compares). -/
def charToLowerAscii (c : Char) : Char :=
  if 65 ≤ c.toNat ∧ c.toNat ≤ 90 then Char.ofNat (c.toNat + 32) else c

/-- ASCII lowercasing of a string. -/
def toLowerAscii (s : String) : String :=
  String.mk (s.data.map charToLowerAscii)

/-- `path.extname` on a basename: the substring from the last dot; empty
when there is no dot, or when the only dot is the leading character. -/
def extnameOf (base : String) : String :=
  let r := base.data.reverse
  let tl := r.takeWhile (fun c => c ≠ '.')
  match r.dropWhile (fun c => c ≠ '.') with
  | [] => ""
  | ['.'] => ""
  | _ :: _ => String.mk ('.' :: tl.reverse)

/-- The `DICM` signature bytes compared against. -/
def dicmMagic : List Nat := [68, 73, 67, 77]

/-- The 4 bytes `isLikelyDicom` inspects: `Buffer.alloc(4)` is
zero-filled, `fh.read(buf, 0, 4, 128)` copies what exists at offset 128,
and `buf.toString('ascii')` masks each byte to 7 bits. -/
def magicWindow (content : List Nat) : List Nat :=
  let w := (content.drop 128).take 4
  (w ++ List.replicate (4 - w.length) 0).map (fun b => b % 128)

/-- `JmixBuilder.isLikelyDicom`: lowercased extension `.dcm`/`.dicom`, or
the `DICM` magic at offset 128; unreadable files are treated as
non-matching (reads cannot fail in this model). -/
def isLikelyDicom (f : FileEntry) : Bool :=
  let base := match f.path.getLast? with
    | some b => b
    | none => ""
  let ext := toLowerAscii (extnameOf base)
  if ext = ".dcm" ∨ ext = ".dicom" then true
  else magicWindow f.content = dicmMagic

/-- The payload tree both packagers assemble: every classified source
file copied to `dicom/<rel>`, plus `metadata.json` (serialized metadata
document, passed as bytes). -/
def payloadTreeOf (sourceFiles : List FileEntry) (metadataBytes : List Nat) : List FileEntry :=
  (sourceFiles.filter isLikelyDicom).map (fun f => ⟨"dicom" :: f.path, f.content⟩)
    ++ [⟨["metadata.json"], metadataBytes⟩]

/-- `JmixBuilder.packageToDirectory`: assemble the plaintext payload,
hash it, store the digest in `security.payload_hash`, write manifest and
audit at the package root.  Returns the final manifest security fields
and the envelope directory state. -/
def packageToDirectory (sha256 : List Nat → List Nat)
    (sourceFiles : List FileEntry) (metadataBytes manifestBytes auditBytes : List Nat) :
    Security × FS :=
  let tree := payloadTreeOf sourceFiles metadataBytes
  let fs0 := fsWriteTree [] "payload" tree
  let h := computePayloadHash sha256 tree
  let fs1 := fsWrite fs0 ["manifest.json"] manifestBytes
  let fs2 := fsWrite fs1 ["audit.json"] auditBytes
  ({ payloadHash := some h, encryption := none }, fs2)

/-- `JmixBuilder.packageEncryptedToDirectory`: assemble the plaintext
payload, hash it, tar it to `payload.tmp.tar`, encrypt the tar to
`payload.encrypted`, remove the temporary tar and the plaintext
`payload/` directory, then write manifest (with `payload_hash` and
`encryption`) and audit.  An `encryptTar` failure propagates with the
directory left as it stood. -/
def packageEncryptedToDirectory (prims : CryptoPrims) (sha256 : List Nat → List Nat)
    (pack : List FileEntry → List Nat) (ephSecret ivRandom : List Nat)
    (sourceFiles : List FileEntry) (metadataBytes manifestBytes auditBytes : List Nat)
    (recipientPub : List Nat) :
    Except CryptoError Security × FS :=
  let tree := payloadTreeOf sourceFiles metadataBytes
  let fs0 := fsWriteTree [] "payload" tree
  let h := computePayloadHash sha256 tree
  let tarBuf := pack tree
  let fs1 := fsWrite fs0 ["payload.tmp.tar"] tarBuf
  match encryptTar prims ephSecret ivRandom tarBuf recipientPub with
  | .error e => (.error e, fs1)
  | .ok (ct, res) =>
    let fs2 := fsWrite fs1 ["payload.encrypted"] ct
    let fs3 := fsRemove fs2 ["payload.tmp.tar"]
    let fs4 := fsRemoveDir fs3 "payload"
    let fs5 := fsWrite fs4 ["manifest.json"] manifestBytes
    let fs6 := fsWrite fs5 ["audit.json"] auditBytes
    (.ok { payloadHash := some h, encryption := some res }, fs6)

/-- `JmixBuilder.decryptEnvelope`: read the encryption material
(missing fields throw), decrypt the ciphertext, write the temporary tar,
extract into `payload/`, remove the temporary tar, then, only when the
manifest stores `security.payload_hash`, recompute the digest over the
extracted payload and reject a mismatch.  The envelope directory state is
threaded explicitly; `fs` is the directory before the call. -/
def decryptEnvelope (prims : CryptoPrims) (sha256 : List Nat → List Nat)
    (unpack : List Nat → Option (List FileEntry))
    (security : Security) (ciphertext : List Nat) (recipientPriv : List Nat) (fs : FS) :
    Except PipelineError (List FileEntry) × FS :=
  match security.encryption with
  | none => (.error .missingEncryptionMetadata, fs)
  | some enc =>
    match decryptToBuffer prims ciphertext enc.ephemeralPublicKey enc.iv enc.authTag recipientPriv with
    | .error e => (.error (.cryptoFailure e), fs)
    | .ok tarBuf =>
      let fs1 := fsWrite fs ["payload.decrypted.tar"] tarBuf
      match unpack tarBuf with
      | none => (.error .archiveCorrupt, fs1)
      | some tree =>
        let fs2 := fsWriteTree fs1 "payload" tree
        let fs3 := fsRemove fs2 ["payload.decrypted.tar"]
        match security.payloadHash with
        | none => (.ok tree, fs3)
        | some expected =>
          let computed := computePayloadHash sha256 tree
          if computed = expected then (.ok tree, fs3)
          else (.error (.integrityViolation expected computed), fs3)

/-- The record `verifyPayloadHash` resolves to. -/
structure VerifyResult where
  ok : Bool
  expected : String
  computed : String
  mode : String
deriving DecidableEq

/-- Modelled from the spec: `verifyPayloadHash` is absent from `src/`
(only its demo caller, README and CHANGELOG appear).  Per the spec: read
the stored digest; for a plaintext envelope recompute the digest
directly, requiring no key; for a sealed envelope require the private
key, open into a scratch location, hash, and discard the scratch payload
regardless of the comparison outcome; report ok, expected, computed and
the mode. -/
def verifyPayloadHash (prims : CryptoPrims) (sha256 : List Nat → List Nat)
    (unpack : List Nat → Option (List FileEntry))
    (security : Security) (plainTree : Option (List FileEntry))
    (ciphertext : Option (List Nat)) (recipientPriv : Option (List Nat)) (fs : FS) :
    Except PipelineError VerifyResult × FS :=
  match security.payloadHash with
  | none => (.error .missingPayloadHash, fs)
  | some expected =>
    match plainTree with
    | some tree =>
      let computed := computePayloadHash sha256 tree
      (.ok ⟨computed == expected, expected, computed, "plain"⟩, fs)
    | none =>
      match ciphertext, security.encryption with
      | some ct, some enc =>
        match recipientPriv with
        | none => (.error .missingRecipientKey, fs)
        | some priv =>
          match decryptToBuffer prims ct enc.ephemeralPublicKey enc.iv enc.authTag priv with
          | .error e => (.error (.cryptoFailure e), fs)
          | .ok buf =>
            match unpack buf with
            | none => (.error .archiveCorrupt, fs)
            | some tree =>
              let fs1 := fsWriteTree fs "payload.verify.tmp" tree
              let computed := computePayloadHash sha256 tree
              let fs2 := fsRemoveDir fs1 "payload.verify.tmp"
              (.ok ⟨computed == expected, expected, computed, "encrypted"⟩, fs2)
      | _, _ => (.error .missingEncryptionMetadata, fs)

/-- Concrete primitives for witnesses: decryption accepts and returns the
ciphertext unchanged. -/
def toyPrims : CryptoPrims where
  scalarMultBase := fun _ => List.replicate 32 0
  scalarMult := fun _ _ => []
  hkdf := fun _ _ _ _ => []
  aesGcmEnc := fun _ _ pt => (pt, List.replicate 16 0)
  aesGcmDec := fun _ _ ct _ => some ct

/-- Concrete primitives for witnesses: the AEAD tag check always fails. -/
def toyPrimsReject : CryptoPrims where
  scalarMultBase := fun _ => List.replicate 32 0
  scalarMult := fun _ _ => []
  hkdf := fun _ _ _ _ => []
  aesGcmEnc := fun _ _ pt => (pt, List.replicate 16 0)
  aesGcmDec := fun _ _ _ _ => none

/-- A small concrete payload tree for witnesses. -/
def sampleTree : List FileEntry :=
  [⟨["b"], [1]⟩, ⟨["a"], [2]⟩]

/-- A one-file payload tree used by concrete counterexamples. -/
def demoTree : List FileEntry :=
  [⟨["metadata.json"], []⟩]

/-- Security fields of a sealed envelope whose stored digest is stale. -/
def demoSecurity : Security :=
  { payloadHash := some "sha256:stale",
    encryption := some ⟨List.replicate 32 0, List.replicate 12 0, List.replicate 16 0⟩ }

/-- The source directory of the end-to-end scenario: one 100-byte
`a/b.dcm` and one non-matching `notes.txt`. -/
def c6Source : List FileEntry :=
  [⟨["a", "b.dcm"], List.replicate 100 0⟩, ⟨["notes.txt"], [110]⟩]

/-- A tiny serialized metadata document for the scenario. -/
def c6Metadata : List Nat := [123, 125]

/-- Security fields of a sealed envelope that stores no payload digest. -/
def demoSecurityNoHash : Security :=
  { payloadHash := none,
    encryption := some ⟨List.replicate 32 0, List.replicate 12 0, List.replicate 16 0⟩ }

/-! ## Order lemmas for the path comparison -/

theorem char_eq_of_toNat_eq {a b : Char} (h : a.toNat = b.toNat) : a = b := by
  rw [← Char.ofNat_toNat a, ← Char.ofNat_toNat b, h]

theorem charListLt_asymm :
    ∀ x y : List Char, charListLt x y = true → charListLt y x = false := by
  intro x
  induction x with
  | nil =>
    intro y h
    cases y with
    | nil => simp [charListLt] at h
    | cons b bs => simp [charListLt]
  | cons a as ih =>
    intro y h
    cases y with
    | nil => simp [charListLt] at h
    | cons b bs =>
      simp only [charListLt] at h ⊢
      by_cases hab : a.toNat < b.toNat
      · have hba : ¬ b.toNat < a.toNat := by omega
        simp [hab, hba]
      · by_cases hba : b.toNat < a.toNat
        · simp [hab, hba] at h
        · simp only [if_neg hab, if_neg hba] at h ⊢
          exact ih bs h

theorem charListLt_conn :
    ∀ x y : List Char, charListLt x y = false → charListLt y x = false → x = y := by
  intro x
  induction x with
  | nil =>
    intro y h1 _
    cases y with
    | nil => rfl
    | cons b bs => simp [charListLt] at h1
  | cons a as ih =>
    intro y h1 h2
    cases y with
    | nil => simp [charListLt] at h2
    | cons b bs =>
      simp only [charListLt] at h1 h2
      by_cases hab : a.toNat < b.toNat
      · simp [hab] at h1
      · by_cases hba : b.toNat < a.toNat
        · simp [hba] at h2
        · simp only [if_neg hab, if_neg hba] at h1 h2
          have hc : a = b := char_eq_of_toNat_eq (by omega)
          rw [hc, ih bs h1 h2]

theorem charListLt_resolve :
    ∀ z x y : List Char, charListLt z x = true →
      charListLt z y = true ∨ charListLt y x = true := by
  intro z
  induction z with
  | nil =>
    intro x y h
    cases x with
    | nil => simp [charListLt] at h
    | cons a as =>
      cases y with
      | nil => right; simp [charListLt]
      | cons b bs => left; simp [charListLt]
  | cons c cs ih =>
    intro x y h
    cases x with
    | nil => simp [charListLt] at h
    | cons a as =>
      cases y with
      | nil => right; simp [charListLt]
      | cons b bs =>
        simp only [charListLt] at h ⊢
        by_cases hcb : c.toNat < b.toNat
        · left; simp [hcb]
        · by_cases hbc : b.toNat < c.toNat
          · -- b strictly below c: whatever made z < x pushes b below a too
            by_cases hca : c.toNat < a.toNat
            · right
              have hba : b.toNat < a.toNat := by omega
              simp [hba]
            · by_cases hac : a.toNat < c.toNat
              · simp [hca, hac] at h
              · right
                have hba : b.toNat < a.toNat := by omega
                simp [hba]
          · -- heads of z and y agree
            by_cases hca : c.toNat < a.toNat
            · right
              by_cases hba : b.toNat < a.toNat
              · simp [hba]
              · omega
            · by_cases hac : a.toNat < c.toNat
              · simp [hca, hac] at h
              · simp only [if_neg hca, if_neg hac] at h
                have hab : ¬ a.toNat < b.toNat := by omega
                have hba : ¬ b.toNat < a.toNat := by omega
                simp only [if_neg hcb, if_neg hbc, if_neg hab, if_neg hba]
                exact ih as bs h

theorem entryLe_total (a b : FileEntry) : entryLe a b ∨ entryLe b a := by
  unfold entryLe strLeB
  by_cases h : strLtB b.relPathStr a.relPathStr = true
  · right
    unfold strLtB at h ⊢
    simp [charListLt_asymm _ _ h]
  · left
    simp [Bool.not_eq_true] at h
    simp [h]

theorem entryLe_trans (a b c : FileEntry) :
    entryLe a b → entryLe b c → entryLe a c := by
  unfold entryLe strLeB strLtB
  intro h1 h2
  simp only [Bool.not_eq_true'] at h1 h2 ⊢
  by_cases h : charListLt c.relPathStr.data a.relPathStr.data = true
  · rcases charListLt_resolve _ _ b.relPathStr.data h with hr | hr
    · rw [hr] at h2; exact absurd h2 (by simp)
    · rw [hr] at h1; exact absurd h1 (by simp)
  · simpa using h

theorem sortEntries_perm (t : List FileEntry) : (sortEntries t).Perm t :=
  List.perm_insertionSort entryLe t

theorem sortEntries_sorted (t : List FileEntry) : List.Sorted entryLe (sortEntries t) := by
  haveI : IsTotal FileEntry entryLe := ⟨entryLe_total⟩
  haveI : IsTrans FileEntry entryLe := ⟨entryLe_trans⟩
  exact List.sorted_insertionSort entryLe t

theorem sorted_entryLt_of_sorted_le (l : List FileEntry)
    (hs : List.Sorted entryLe l) (hnd : (l.map FileEntry.relPathStr).Nodup) :
    List.Sorted entryLt l := by
  have hpw : l.Pairwise (fun a b => a.relPathStr ≠ b.relPathStr) := List.pairwise_map.mp hnd
  have hs' : l.Pairwise entryLe := hs
  refine (hs'.and hpw).imp ?_
  rintro a b ⟨hle, hne⟩
  unfold entryLe strLeB strLtB at hle
  unfold entryLt strLtB
  simp only [Bool.not_eq_true'] at hle
  by_cases h : charListLt a.relPathStr.data b.relPathStr.data = true
  · exact h
  · exfalso
    apply hne
    apply String.ext
    exact charListLt_conn _ _ (by simpa using h) hle

theorem sortEntries_eq_of_perm {t₁ t₂ : List FileEntry} (h : t₁.Perm t₂)
    (hnd : (t₁.map FileEntry.relPathStr).Nodup) : sortEntries t₁ = sortEntries t₂ := by
  haveI : IsAntisymm FileEntry entryLt := by
    refine ⟨fun a b h1 h2 => ?_⟩
    unfold entryLt strLtB at h1 h2
    have := charListLt_asymm _ _ h1
    rw [h2] at this
    cases this
  have hnd₂ : (t₂.map FileEntry.relPathStr).Nodup :=
    ((h.map FileEntry.relPathStr).nodup_iff).mp hnd
  have hnds₁ : ((sortEntries t₁).map FileEntry.relPathStr).Nodup :=
    (((sortEntries_perm t₁).map FileEntry.relPathStr).nodup_iff).mpr hnd
  have hnds₂ : ((sortEntries t₂).map FileEntry.relPathStr).Nodup :=
    (((sortEntries_perm t₂).map FileEntry.relPathStr).nodup_iff).mpr hnd₂
  exact List.eq_of_perm_of_sorted
    ((sortEntries_perm t₁).trans (h.trans (sortEntries_perm t₂).symm))
    (sorted_entryLt_of_sorted_le _ (sortEntries_sorted t₁) hnds₁)
    (sorted_entryLt_of_sorted_le _ (sortEntries_sorted t₂) hnds₂)

theorem hashStream_eq_flatten (entries : List FileEntry) :
    hashStream entries = (entries.map entryRecord).flatten := by
  unfold hashStream
  suffices h : ∀ acc : List Nat,
      entries.foldl (fun acc f => acc ++ utf8Bytes (f.relPathStr ++ "\n") ++ f.content) acc
        = acc ++ (entries.map entryRecord).flatten by
    simpa using h []
  induction entries with
  | nil => intro acc; simp
  | cons f fs ih =>
    intro acc
    rw [List.foldl_cons, ih, List.map_cons, List.flatten_cons, entryRecord]
    simp [List.append_assoc]

/-- Claim C2: the payload digest equals `sha256:` followed by the
lowercase hex SHA-256 of the concatenation, over all files sorted by
forward-slash relative path, of the UTF-8 bytes of the path plus a
newline followed by the raw bytes, with no separators; the digest is
invariant under re-enumeration of the (unique-path) tree, and the empty
tree digests the empty byte stream. -/
theorem payload_digest_canonical (sha256 : List Nat → List Nat) (t : List FileEntry)
    (hnd : (t.map FileEntry.relPathStr).Nodup) :
    computePayloadHash sha256 t
        = "sha256:" ++ String.mk (hexOfBytes (sha256 (((sortEntries t).map entryRecord).flatten)))
      ∧ (∀ t', t.Perm t' → computePayloadHash sha256 t = computePayloadHash sha256 t')
      ∧ computePayloadHash sha256 [] = "sha256:" ++ String.mk (hexOfBytes (sha256 [])) := by
  refine ⟨?_, ?_, rfl⟩
  · unfold computePayloadHash
    rw [hashStream_eq_flatten]
  · intro t' hp
    unfold computePayloadHash
    rw [sortEntries_eq_of_perm hp hnd]

theorem payload_digest_canonical_witness :
    (sampleTree.map FileEntry.relPathStr).Nodup
      ∧ (computePayloadHash (fun l => l) sampleTree
            = "sha256:"
                ++ String.mk (hexOfBytes ((fun l => l) (((sortEntries sampleTree).map entryRecord).flatten)))
          ∧ (∀ t', sampleTree.Perm t' →
              computePayloadHash (fun l => l) sampleTree = computePayloadHash (fun l => l) t')
          ∧ computePayloadHash (fun l => l) []
              = "sha256:" ++ String.mk (hexOfBytes ((fun l => l) []))) :=
  ⟨by decide, payload_digest_canonical (fun l => l) sampleTree (by decide)⟩

/-! ## Crypto layer -/

theorem decryptToBuffer_ok (prims : CryptoPrims) (ct ephPub iv tag priv pt : List Nat)
    (h1 : ephPub.length = 32) (h2 : priv.length = 32)
    (h3 : iv.length = 12) (h4 : tag.length = 16)
    (hdec : prims.aesGcmDec (prims.hkdf (prims.scalarMult priv ephPub) [] hkdfInfo 32)
        iv ct tag = some pt) :
    decryptToBuffer prims ct ephPub iv tag priv = .ok pt := by
  unfold decryptToBuffer
  rw [if_neg (by simp [h1]), if_neg (by simp [h2]), if_neg (by simp [h3]), if_neg (by simp [h4])]
  simp [hdec]

/-- Claim C1: sealing a payload tree to a recipient public key (tar,
X25519 with a fresh ephemeral key, HKDF-SHA256 with empty salt and the
fixed info string, AES-256-GCM) and opening the result with the matching
private key restores the tree exactly.  The hypotheses are the interface
contracts of the primitives: X25519 key sizes and commutativity of the
Diffie-Hellman shared secret, AES-GCM round-trip with its 16-byte tag,
and the tar round-trip law for the archive of this tree. -/
theorem seal_open_roundtrip (prims : CryptoPrims)
    (pack : List FileEntry → List Nat) (unpack : List Nat → Option (List FileEntry))
    (t : List FileEntry) (ephSecret ivRandom recipientPriv : List Nat)
    (hpub : (prims.scalarMultBase recipientPriv).length = 32)
    (hephpub : (prims.scalarMultBase ephSecret).length = 32)
    (hpriv : recipientPriv.length = 32)
    (hiv : ivRandom.length = 12)
    (hdh : prims.scalarMult recipientPriv (prims.scalarMultBase ephSecret)
         = prims.scalarMult ephSecret (prims.scalarMultBase recipientPriv))
    (htag : ∀ key iv pt, (prims.aesGcmEnc key iv pt).2.length = 16)
    (hgcm : ∀ key iv pt,
        prims.aesGcmDec key iv (prims.aesGcmEnc key iv pt).1 (prims.aesGcmEnc key iv pt).2
          = some pt)
    (htar : unpack (pack t) = some t) :
    ∃ ct enc,
      sealTree prims pack ephSecret ivRandom t (prims.scalarMultBase recipientPriv)
          = .ok (ct, enc)
        ∧ openSealed prims unpack ct enc recipientPriv = .ok t := by
  refine ⟨(prims.aesGcmEnc
      (prims.hkdf (prims.scalarMult ephSecret (prims.scalarMultBase recipientPriv)) [] hkdfInfo 32)
      ivRandom (pack t)).1,
    ⟨prims.scalarMultBase ephSecret, ivRandom,
      (prims.aesGcmEnc
        (prims.hkdf (prims.scalarMult ephSecret (prims.scalarMultBase recipientPriv)) [] hkdfInfo 32)
        ivRandom (pack t)).2⟩, ?_, ?_⟩
  · unfold sealTree encryptTar
    rw [if_neg (by simp [hpub])]
  · unfold openSealed
    rw [decryptToBuffer_ok prims _ _ _ _ _ (pack t) hephpub hpriv hiv (htag _ _ _)
        (by rw [hdh]; exact hgcm _ _ _)]
    simp [htar]

theorem seal_open_roundtrip_witness :
    (toyPrims.scalarMultBase (List.replicate 32 2)).length = 32
      ∧ ∃ ct enc,
          sealTree toyPrims (fun _ => [5]) [1] (List.replicate 12 0) sampleTree
              (toyPrims.scalarMultBase (List.replicate 32 2))
            = .ok (ct, enc)
          ∧ openSealed toyPrims (fun _ => some sampleTree) ct enc (List.replicate 32 2)
            = .ok sampleTree :=
  ⟨by decide,
    seal_open_roundtrip toyPrims (fun _ => [5]) (fun _ => some sampleTree) sampleTree
      [1] (List.replicate 12 0) (List.replicate 32 2)
      (by decide) (by decide) (by decide) (by decide) rfl
      (fun _ _ _ => rfl) (fun _ _ _ => rfl) rfl⟩

/-- Claim C3: whenever the AEAD tag check rejects (tampered ciphertext,
tampered tag or material, or a key that does not match the stored
ephemeral public key all make `decipher.final()` reject), `Open` fails
with `authenticationFailed` and never returns any plaintext, partial or
otherwise. -/
theorem open_auth_failure_all_or_nothing (prims : CryptoPrims)
    (ciphertext ephPub iv tag recipientPriv : List Nat)
    (h1 : ephPub.length = 32) (h2 : recipientPriv.length = 32)
    (h3 : iv.length = 12) (h4 : tag.length = 16)
    (hfail : prims.aesGcmDec (prims.hkdf (prims.scalarMult recipientPriv ephPub) [] hkdfInfo 32)
        iv ciphertext tag = none) :
    decryptToBuffer prims ciphertext ephPub iv tag recipientPriv
        = .error .authenticationFailed
      ∧ ∀ pt, decryptToBuffer prims ciphertext ephPub iv tag recipientPriv ≠ .ok pt := by
  have hmain : decryptToBuffer prims ciphertext ephPub iv tag recipientPriv
      = .error .authenticationFailed := by
    unfold decryptToBuffer
    rw [if_neg (by simp [h1]), if_neg (by simp [h2]), if_neg (by simp [h3]),
        if_neg (by simp [h4])]
    simp [hfail]
  exact ⟨hmain, fun pt h => by rw [hmain] at h; exact Except.noConfusion h⟩

theorem open_auth_failure_all_or_nothing_witness :
    (List.replicate 32 (0 : Nat)).length = 32
      ∧ (decryptToBuffer toyPrimsReject [9] (List.replicate 32 0) (List.replicate 12 0)
            (List.replicate 16 0) (List.replicate 32 0)
          = .error .authenticationFailed
        ∧ ∀ pt, decryptToBuffer toyPrimsReject [9] (List.replicate 32 0) (List.replicate 12 0)
            (List.replicate 16 0) (List.replicate 32 0) ≠ .ok pt) :=
  ⟨by decide,
    open_auth_failure_all_or_nothing toyPrimsReject [9] (List.replicate 32 0)
      (List.replicate 12 0) (List.replicate 16 0) (List.replicate 32 0)
      (by decide) (by decide) (by decide) (by decide) rfl⟩

/-- Claim C8: `Seal` rejects a recipient public key that is not exactly
32 bytes before any key agreement or encryption (the error does not
depend on the primitives or the plaintext), and `Open` validates all
material lengths, in source order, before touching the ciphertext (each
error is uniform in the ciphertext and the primitives). -/
theorem length_validation_before_crypto :
    (∀ (prims : CryptoPrims) (ephSecret ivRandom tarData recipientPub : List Nat),
        recipientPub.length ≠ 32 →
        encryptTar prims ephSecret ivRandom tarData recipientPub
          = .error .invalidRecipientPublicKey)
      ∧ (∀ (prims : CryptoPrims) (ct ephPub iv tag priv : List Nat),
          ephPub.length ≠ 32 →
          decryptToBuffer prims ct ephPub iv tag priv = .error .invalidEphemeralPublicKey)
      ∧ (∀ (prims : CryptoPrims) (ct ephPub iv tag priv : List Nat),
          ephPub.length = 32 → priv.length ≠ 32 →
          decryptToBuffer prims ct ephPub iv tag priv = .error .invalidRecipientPrivateKey)
      ∧ (∀ (prims : CryptoPrims) (ct ephPub iv tag priv : List Nat),
          ephPub.length = 32 → priv.length = 32 → iv.length ≠ 12 →
          decryptToBuffer prims ct ephPub iv tag priv = .error .invalidIvLength)
      ∧ (∀ (prims : CryptoPrims) (ct ephPub iv tag priv : List Nat),
          ephPub.length = 32 → priv.length = 32 → iv.length = 12 → tag.length ≠ 16 →
          decryptToBuffer prims ct ephPub iv tag priv = .error .invalidAuthTagLength) := by
  refine ⟨?_, ?_, ?_, ?_, ?_⟩
  · intro prims ephSecret ivRandom tarData recipientPub h
    unfold encryptTar
    rw [if_pos h]
  · intro prims ct ephPub iv tag priv h
    unfold decryptToBuffer
    rw [if_pos h]
  · intro prims ct ephPub iv tag priv h1 h2
    unfold decryptToBuffer
    rw [if_neg (by simp [h1]), if_pos h2]
  · intro prims ct ephPub iv tag priv h1 h2 h3
    unfold decryptToBuffer
    rw [if_neg (by simp [h1]), if_neg (by simp [h2]), if_pos h3]
  · intro prims ct ephPub iv tag priv h1 h2 h3 h4
    unfold decryptToBuffer
    rw [if_neg (by simp [h1]), if_neg (by simp [h2]), if_neg (by simp [h3]), if_pos h4]

theorem length_validation_before_crypto_witness :
    ([] : List Nat).length ≠ 32
      ∧ encryptTar toyPrims [] [] [7] [] = .error .invalidRecipientPublicKey :=
  ⟨by decide, length_validation_before_crypto.1 toyPrims [] [] [7] [] (by decide)⟩

/-! ## Filesystem lemmas -/

theorem any_filter_comm {α : Type} (l : List α) (f g : α → Bool) :
    (l.filter f).any g = l.any (fun a => f a && g a) := by
  induction l with
  | nil => rfl
  | cons a as ih =>
    by_cases hf : f a = true <;> simp [List.filter_cons, hf, ih]

theorem fsHas_fsWrite_self (fs : FS) (p : List String) (c : List Nat) :
    fsHas (fsWrite fs p c) p = true := by
  unfold fsHas fsWrite
  simp

theorem fsHas_fsWrite_ne (fs : FS) (p q : List String) (c : List Nat) (h : q ≠ p) :
    fsHas (fsWrite fs p c) q = fsHas fs q := by
  unfold fsHas fsWrite
  have hqp : ¬ p = q := fun hpq => h hpq.symm
  have hp : ∀ e : List String × List Nat,
      ((!decide (e.1 = p)) && decide (e.1 = q)) = decide (e.1 = q) := by
    intro e
    by_cases he : e.1 = q
    · simp [he, h]
    · simp [he]
  simp [List.any_append, any_filter_comm, hp, hqp]

theorem fsHas_fsWrite_mono (fs : FS) (p q : List String) (c : List Nat)
    (h : fsHas fs q = true) : fsHas (fsWrite fs p c) q = true := by
  by_cases hq : q = p
  · rw [hq]; exact fsHas_fsWrite_self fs p c
  · rw [fsHas_fsWrite_ne fs p q c hq]; exact h

theorem fsHas_fsRemove_self (fs : FS) (p : List String) :
    fsHas (fsRemove fs p) p = false := by
  unfold fsHas fsRemove
  rw [any_filter_comm]
  simp only [List.any_eq_false]
  intro e _
  by_cases he : e.1 = p <;> simp [he]

theorem fsHas_fsRemove_ne (fs : FS) (p q : List String) (h : q ≠ p) :
    fsHas (fsRemove fs p) q = fsHas fs q := by
  unfold fsHas fsRemove
  have hp : ∀ e : List String × List Nat,
      ((!decide (e.1 = p)) && decide (e.1 = q)) = decide (e.1 = q) := by
    intro e
    by_cases he : e.1 = q
    · simp [he, h]
    · simp [he]
  simp [any_filter_comm, hp]

theorem fsHas_fsRemoveDir_ne (fs : FS) (d : String) (q : List String)
    (h : q.head? ≠ some d) : fsHas (fsRemoveDir fs d) q = fsHas fs q := by
  unfold fsHas fsRemoveDir
  have hp : ∀ e : List String × List Nat,
      ((!decide (e.1.head? = some d)) && decide (e.1 = q)) = decide (e.1 = q) := by
    intro e
    by_cases he : e.1 = q
    · simp [he, h]
    · simp [he]
  simp [any_filter_comm, hp]

theorem head_ne_of_mem_fsRemoveDir (fs : FS) (d : String)
    (e : List String × List Nat) (h : e ∈ fsRemoveDir fs d) : e.1.head? ≠ some d := by
  unfold fsRemoveDir at h
  simpa using List.of_mem_filter h

theorem mem_fsWrite_elim (fs : FS) (p : List String) (c : List Nat)
    (e : List String × List Nat) (h : e ∈ fsWrite fs p c) : e ∈ fs ∨ e = (p, c) := by
  unfold fsWrite at h
  rcases List.mem_append.mp h with h' | h'
  · exact Or.inl (List.mem_of_mem_filter h')
  · right; simpa using h'

theorem fsHas_fsWriteTree_mono (tree : List FileEntry) (fs : FS) (root : String)
    (q : List String) (h : fsHas fs q = true) :
    fsHas (fsWriteTree fs root tree) q = true := by
  induction tree generalizing fs with
  | nil => exact h
  | cons g gs ih =>
    unfold fsWriteTree
    rw [List.foldl_cons]
    exact ih _ (fsHas_fsWrite_mono _ _ _ _ h)

theorem fsHas_fsWriteTree_of_mem (tree : List FileEntry) (fs : FS) (root : String)
    (f : FileEntry) (hf : f ∈ tree) :
    fsHas (fsWriteTree fs root tree) (root :: f.path) = true := by
  induction tree generalizing fs with
  | nil => cases hf
  | cons g gs ih =>
    unfold fsWriteTree
    rw [List.foldl_cons]
    rcases List.mem_cons.mp hf with hfg | hfg
    · subst hfg
      exact fsHas_fsWriteTree_mono gs _ root _ (fsHas_fsWrite_self fs _ _)
    · exact ih _ hfg

theorem fsRemoveDir_fsWrite_under (fs : FS) (d : String) (p : List String) (c : List Nat) :
    fsRemoveDir (fsWrite fs (d :: p) c) d = fsRemoveDir fs d := by
  unfold fsRemoveDir fsWrite
  rw [List.filter_append, List.filter_filter]
  have h1 : List.filter (fun e : List String × List Nat => decide (e.1.head? ≠ some d))
      [(d :: p, c)] = [] := by simp
  have h2 : ∀ e : List String × List Nat,
      ((decide (e.1.head? ≠ some d)) && decide (e.1 ≠ d :: p))
        = decide (e.1.head? ≠ some d) := by
    intro e
    by_cases he : e.1.head? = some d
    · simp [he]
    · have : e.1 ≠ d :: p := by
        intro hq
        rw [hq] at he
        exact he rfl
      simp [he, this]
  rw [h1, List.append_nil]
  exact List.filter_congr (fun e _ => h2 e)

theorem fsRemoveDir_fsWriteTree (tree : List FileEntry) (fs : FS) (d : String) :
    fsRemoveDir (fsWriteTree fs d tree) d = fsRemoveDir fs d := by
  induction tree generalizing fs with
  | nil => rfl
  | cons g gs ih =>
    unfold fsWriteTree
    rw [List.foldl_cons]
    calc fsRemoveDir (fsWriteTree (fsWrite fs (d :: g.path) g.content) d gs) d
        = fsRemoveDir (fsWrite fs (d :: g.path) g.content) d := ih _
      _ = fsRemoveDir fs d := fsRemoveDir_fsWrite_under fs d g.path g.content

theorem fsRemoveDir_eq_self (fs : FS) (d : String)
    (h : ∀ e ∈ fs, e.1.head? ≠ some d) : fsRemoveDir fs d = fs := by
  unfold fsRemoveDir
  exact List.filter_eq_self.mpr (fun e he => by simpa using h e he)

/-! ## Pipeline claims -/

/-- Claim C4: when a sealed envelope's ciphertext decrypts and extracts
successfully and the manifest stores a payload digest, `decryptEnvelope`
recomputes the digest over the extracted tree and fails with an
integrity violation when it differs from the stored one, even though the
AEAD decryption itself succeeded. -/
theorem open_integrity_mismatch (prims : CryptoPrims) (sha256 : List Nat → List Nat)
    (unpack : List Nat → Option (List FileEntry)) (security : Security)
    (ciphertext recipientPriv : List Nat) (fs : FS) (enc : EncMaterial)
    (buf : List Nat) (tree : List FileEntry) (expected : String)
    (henc : security.encryption = some enc)
    (hdec : decryptToBuffer prims ciphertext enc.ephemeralPublicKey enc.iv enc.authTag
        recipientPriv = .ok buf)
    (hun : unpack buf = some tree)
    (hhash : security.payloadHash = some expected)
    (hne : computePayloadHash sha256 tree ≠ expected) :
    (decryptEnvelope prims sha256 unpack security ciphertext recipientPriv fs).1
      = .error (.integrityViolation expected (computePayloadHash sha256 tree)) := by
  simp only [decryptEnvelope, henc, hdec, hun, hhash]
  rw [if_neg hne]

theorem open_integrity_mismatch_witness :
    computePayloadHash (fun _ => ([] : List Nat)) demoTree ≠ "sha256:stale"
      ∧ (decryptEnvelope toyPrims (fun _ => ([] : List Nat)) (fun _ => some demoTree)
            demoSecurity [9] (List.replicate 32 0) []).1
        = .error (.integrityViolation "sha256:stale"
            (computePayloadHash (fun _ => ([] : List Nat)) demoTree)) :=
  ⟨by decide,
    open_integrity_mismatch toyPrims (fun _ => ([] : List Nat)) (fun _ => some demoTree)
      demoSecurity [9] (List.replicate 32 0) []
      ⟨List.replicate 32 0, List.replicate 12 0, List.replicate 16 0⟩ [9] demoTree
      "sha256:stale" rfl (by decide) rfl rfl (by decide)⟩

/-- Claim C10 (implicit): when the manifest of a sealed envelope stores
no `security.payload_hash`, `decryptEnvelope` skips the integrity
comparison entirely and returns the extracted payload as a success; the
result does not depend on the hash function at all. -/
theorem open_skips_missing_digest (prims : CryptoPrims) (sha256 : List Nat → List Nat)
    (unpack : List Nat → Option (List FileEntry)) (security : Security)
    (ciphertext recipientPriv : List Nat) (fs : FS) (enc : EncMaterial)
    (buf : List Nat) (tree : List FileEntry)
    (henc : security.encryption = some enc)
    (hdec : decryptToBuffer prims ciphertext enc.ephemeralPublicKey enc.iv enc.authTag
        recipientPriv = .ok buf)
    (hun : unpack buf = some tree)
    (hnone : security.payloadHash = none) :
    (decryptEnvelope prims sha256 unpack security ciphertext recipientPriv fs).1
      = .ok tree := by
  simp only [decryptEnvelope, henc, hdec, hun, hnone]

theorem open_skips_missing_digest_witness :
    demoSecurityNoHash.payloadHash = none
      ∧ (decryptEnvelope toyPrims (fun _ => ([] : List Nat)) (fun _ => some demoTree)
            demoSecurityNoHash [9] (List.replicate 32 0) []).1
        = .ok demoTree :=
  ⟨rfl,
    open_skips_missing_digest toyPrims (fun _ => ([] : List Nat)) (fun _ => some demoTree)
      demoSecurityNoHash [9] (List.replicate 32 0) []
      ⟨List.replicate 32 0, List.replicate 12 0, List.replicate 16 0⟩ [9] demoTree
      rfl (by decide) rfl rfl⟩

/-- Claim C5: after a successful encrypted packaging, the envelope
directory contains `payload.encrypted`, contains nothing under the
plaintext `payload/` directory (nor the directory itself), and the
temporary plaintext tar is gone: no on-disk plaintext representation of
the payload remains. -/
theorem seal_removes_plaintext_payload (prims : CryptoPrims) (sha256 : List Nat → List Nat)
    (pack : List FileEntry → List Nat) (ephSecret ivRandom : List Nat)
    (sourceFiles : List FileEntry) (metadataBytes manifestBytes auditBytes : List Nat)
    (recipientPub : List Nat) (hlen : recipientPub.length = 32) :
    (∃ sec, (packageEncryptedToDirectory prims sha256 pack ephSecret ivRandom sourceFiles
        metadataBytes manifestBytes auditBytes recipientPub).1 = .ok sec)
      ∧ fsHas (packageEncryptedToDirectory prims sha256 pack ephSecret ivRandom sourceFiles
          metadataBytes manifestBytes auditBytes recipientPub).2 ["payload.encrypted"] = true
      ∧ (∀ e ∈ (packageEncryptedToDirectory prims sha256 pack ephSecret ivRandom sourceFiles
          metadataBytes manifestBytes auditBytes recipientPub).2, e.1.head? ≠ some "payload")
      ∧ fsHas (packageEncryptedToDirectory prims sha256 pack ephSecret ivRandom sourceFiles
          metadataBytes manifestBytes auditBytes recipientPub).2 ["payload.tmp.tar"] = false := by
  obtain ⟨ct, res, henc⟩ : ∃ ct res,
      encryptTar prims ephSecret ivRandom (pack (payloadTreeOf sourceFiles metadataBytes))
        recipientPub = .ok (ct, res) := by
    unfold encryptTar
    rw [if_neg (by simp [hlen])]
    exact ⟨_, _, rfl⟩
  simp only [packageEncryptedToDirectory, henc]
  refine ⟨⟨_, rfl⟩, ?_, ?_, ?_⟩
  · rw [fsHas_fsWrite_ne _ _ _ _ (by decide), fsHas_fsWrite_ne _ _ _ _ (by decide),
      fsHas_fsRemoveDir_ne _ _ _ (by decide), fsHas_fsRemove_ne _ _ _ (by decide)]
    exact fsHas_fsWrite_self _ _ _
  · intro e he
    rcases mem_fsWrite_elim _ _ _ _ he with he | he
    · rcases mem_fsWrite_elim _ _ _ _ he with he | he
      · exact head_ne_of_mem_fsRemoveDir _ _ _ he
      · rw [he]; show some "manifest.json" ≠ some "payload"; decide
    · rw [he]; show some "audit.json" ≠ some "payload"; decide
  · rw [fsHas_fsWrite_ne _ _ _ _ (by decide), fsHas_fsWrite_ne _ _ _ _ (by decide),
      fsHas_fsRemoveDir_ne _ _ _ (by decide)]
    exact fsHas_fsRemove_self _ _

theorem seal_removes_plaintext_payload_witness :
    (List.replicate 32 (3 : Nat)).length = 32
      ∧ ((∃ sec, (packageEncryptedToDirectory toyPrims (fun _ => ([] : List Nat))
              (fun _ => [4]) [1] (List.replicate 12 0) c6Source c6Metadata [] []
              (List.replicate 32 3)).1 = .ok sec)
          ∧ fsHas (packageEncryptedToDirectory toyPrims (fun _ => ([] : List Nat))
              (fun _ => [4]) [1] (List.replicate 12 0) c6Source c6Metadata [] []
              (List.replicate 32 3)).2 ["payload.encrypted"] = true
          ∧ (∀ e ∈ (packageEncryptedToDirectory toyPrims (fun _ => ([] : List Nat))
              (fun _ => [4]) [1] (List.replicate 12 0) c6Source c6Metadata [] []
              (List.replicate 32 3)).2, e.1.head? ≠ some "payload")
          ∧ fsHas (packageEncryptedToDirectory toyPrims (fun _ => ([] : List Nat))
              (fun _ => [4]) [1] (List.replicate 12 0) c6Source c6Metadata [] []
              (List.replicate 32 3)).2 ["payload.tmp.tar"] = false) :=
  ⟨by decide,
    seal_removes_plaintext_payload toyPrims (fun _ => ([] : List Nat)) (fun _ => [4])
      [1] (List.replicate 12 0) c6Source c6Metadata [] [] (List.replicate 32 3) (by decide)⟩

/-- Claim C7, counterexample: an `Open` that fails the digest comparison
does leave the fully extracted payload tree on disk.  Concretely, on an
initially clean envelope directory, decrypting an envelope whose stored
digest is stale fails with an integrity violation, yet
`payload/metadata.json` — absent before the call — is present afterwards. -/
theorem failed_open_leaves_payload_counterexample :
    (decryptEnvelope toyPrims (fun _ => ([] : List Nat)) (fun _ => some demoTree)
          demoSecurity [9] (List.replicate 32 0) []).1
        = .error (.integrityViolation "sha256:stale" "sha256:")
      ∧ fsHas (decryptEnvelope toyPrims (fun _ => ([] : List Nat)) (fun _ => some demoTree)
          demoSecurity [9] (List.replicate 32 0) []).2 ["payload", "metadata.json"] = true
      ∧ fsHas ([] : FS) ["payload", "metadata.json"] = false :=
  ⟨by decide, by decide, by decide⟩

/-- Claim C7, amended: a Seal that fails at encryption (invalid recipient
key) leaves the plaintext payload tree in place, since deletion happens
only after `payload.encrypted` is written; but an Open that fails the
digest comparison after successful decryption leaves the fully extracted
payload tree on disk — the failure paths perform no cleanup. -/
theorem failure_effects_amended :
    (∀ (prims : CryptoPrims) (sha256 : List Nat → List Nat) (pack : List FileEntry → List Nat)
        (ephSecret ivRandom : List Nat) (sourceFiles : List FileEntry)
        (metadataBytes manifestBytes auditBytes recipientPub : List Nat),
        recipientPub.length ≠ 32 →
        (packageEncryptedToDirectory prims sha256 pack ephSecret ivRandom sourceFiles
            metadataBytes manifestBytes auditBytes recipientPub).1
            = .error .invalidRecipientPublicKey
          ∧ ∀ f ∈ payloadTreeOf sourceFiles metadataBytes,
              fsHas (packageEncryptedToDirectory prims sha256 pack ephSecret ivRandom sourceFiles
                metadataBytes manifestBytes auditBytes recipientPub).2
                ("payload" :: f.path) = true)
      ∧ (∀ (prims : CryptoPrims) (sha256 : List Nat → List Nat)
          (unpack : List Nat → Option (List FileEntry)) (security : Security)
          (ciphertext recipientPriv : List Nat) (fs : FS) (enc : EncMaterial)
          (buf : List Nat) (tree : List FileEntry) (expected : String),
          security.encryption = some enc →
          decryptToBuffer prims ciphertext enc.ephemeralPublicKey enc.iv enc.authTag
            recipientPriv = .ok buf →
          unpack buf = some tree →
          security.payloadHash = some expected →
          computePayloadHash sha256 tree ≠ expected →
          (decryptEnvelope prims sha256 unpack security ciphertext recipientPriv fs).1
              = .error (.integrityViolation expected (computePayloadHash sha256 tree))
            ∧ ∀ f ∈ tree,
                fsHas (decryptEnvelope prims sha256 unpack security ciphertext recipientPriv fs).2
                  ("payload" :: f.path) = true) := by
  constructor
  · intro prims sha256 pack ephSecret ivRandom sourceFiles metadataBytes manifestBytes
      auditBytes recipientPub h
    have herr : encryptTar prims ephSecret ivRandom
        (pack (payloadTreeOf sourceFiles metadataBytes)) recipientPub
        = .error .invalidRecipientPublicKey := by
      unfold encryptTar
      rw [if_pos h]
    simp only [packageEncryptedToDirectory, herr]
    refine ⟨trivial, ?_⟩
    intro f hf
    rw [fsHas_fsWrite_ne _ _ _ _
      (by intro hq; injection hq with h1 _; exact absurd h1 (by decide))]
    exact fsHas_fsWriteTree_of_mem _ _ _ _ hf
  · intro prims sha256 unpack security ciphertext recipientPriv fs enc buf tree expected
      henc hdec hun hhash hne
    have hpair : decryptEnvelope prims sha256 unpack security ciphertext recipientPriv fs
        = (.error (.integrityViolation expected (computePayloadHash sha256 tree)),
           fsRemove (fsWriteTree (fsWrite fs ["payload.decrypted.tar"] buf) "payload" tree)
             ["payload.decrypted.tar"]) := by
      simp only [decryptEnvelope, henc, hdec, hun, hhash]
      rw [if_neg hne]
    refine ⟨by simp [hpair], ?_⟩
    intro f hf
    simp only [hpair]
    rw [fsHas_fsRemove_ne _ _ _
      (by intro hq; injection hq with h1 _; exact absurd h1 (by decide))]
    exact fsHas_fsWriteTree_of_mem _ _ _ _ hf

theorem failure_effects_amended_witness :
    ([] : List Nat).length ≠ 32
      ∧ ((packageEncryptedToDirectory toyPrims (fun _ => ([] : List Nat)) (fun _ => [4])
            [1] (List.replicate 12 0) c6Source c6Metadata [] [] []).1
            = .error .invalidRecipientPublicKey
          ∧ ∀ f ∈ payloadTreeOf c6Source c6Metadata,
              fsHas (packageEncryptedToDirectory toyPrims (fun _ => ([] : List Nat))
                (fun _ => [4]) [1] (List.replicate 12 0) c6Source c6Metadata [] [] []).2
                ("payload" :: f.path) = true) :=
  ⟨by decide,
    failure_effects_amended.1 toyPrims (fun _ => ([] : List Nat)) (fun _ => [4])
      [1] (List.replicate 12 0) c6Source c6Metadata [] [] [] (by decide)⟩

/-- Claim C6, counterexample: in the end-to-end scenario the payload
file does land at `payload/dicom/a/b.dcm` and `notes.txt` is excluded,
but the stored digest is not the hash of `"a/b.dcm\n"` plus the file
bytes: the stream actually hashed uses the `dicom/`-prefixed path and
also covers `payload/metadata.json`.  Instantiating the hash function as
the identity on streams exhibits the mismatch. -/
theorem end_to_end_scenario_counterexample :
    ¬(fsHas (packageToDirectory (fun l => l) c6Source c6Metadata [] []).2
          ["payload", "dicom", "a", "b.dcm"] = true
        ∧ fsHas (packageToDirectory (fun l => l) c6Source c6Metadata [] []).2
            ["payload", "notes.txt"] = false
        ∧ (packageToDirectory (fun l => l) c6Source c6Metadata [] []).1.payloadHash
            = some ("sha256:" ++ String.mk (hexOfBytes
                ((fun l => l) (utf8Bytes "a/b.dcm\n" ++ List.replicate 100 0))))) := by
  decide

/-- Claim C6, amended: plain packaging of a source with one `a/b.dcm`
and one non-matching `notes.txt` produces `payload/dicom/a/b.dcm`,
excludes `notes.txt` from the payload, and stores
`security.payload_hash` equal to `sha256:` plus the SHA-256 of the UTF-8
bytes of `"dicom/a/b.dcm\n"`, the file bytes, the UTF-8 bytes of
`"metadata.json\n"`, and the serialized metadata document, in that
order. -/
theorem end_to_end_package_amended (sha256 : List Nat → List Nat)
    (dcm notesBytes metadataBytes manifestBytes auditBytes : List Nat)
    (hnotes : isLikelyDicom ⟨["notes.txt"], notesBytes⟩ = false) :
    fsHas (packageToDirectory sha256 [⟨["a", "b.dcm"], dcm⟩, ⟨["notes.txt"], notesBytes⟩]
        metadataBytes manifestBytes auditBytes).2 ["payload", "dicom", "a", "b.dcm"] = true
      ∧ fsHas (packageToDirectory sha256 [⟨["a", "b.dcm"], dcm⟩, ⟨["notes.txt"], notesBytes⟩]
          metadataBytes manifestBytes auditBytes).2 ["payload", "notes.txt"] = false
      ∧ fsHas (packageToDirectory sha256 [⟨["a", "b.dcm"], dcm⟩, ⟨["notes.txt"], notesBytes⟩]
          metadataBytes manifestBytes auditBytes).2 ["payload", "dicom", "notes.txt"] = false
      ∧ (packageToDirectory sha256 [⟨["a", "b.dcm"], dcm⟩, ⟨["notes.txt"], notesBytes⟩]
          metadataBytes manifestBytes auditBytes).1.payloadHash
        = some ("sha256:" ++ String.mk (hexOfBytes (sha256
            (utf8Bytes "dicom/a/b.dcm\n" ++ dcm
              ++ (utf8Bytes "metadata.json\n" ++ metadataBytes))))) := by
  have h1 : isLikelyDicom ⟨["a", "b.dcm"], dcm⟩ = true := rfl
  have htree : payloadTreeOf [⟨["a", "b.dcm"], dcm⟩, ⟨["notes.txt"], notesBytes⟩] metadataBytes
      = [⟨["dicom", "a", "b.dcm"], dcm⟩, ⟨["metadata.json"], metadataBytes⟩] := by
    simp [payloadTreeOf, List.filter_cons, h1, hnotes]
  simp only [packageToDirectory, htree]
  refine ⟨rfl, rfl, rfl, ?_⟩
  have hsort : sortEntries [(⟨["dicom", "a", "b.dcm"], dcm⟩ : FileEntry),
      ⟨["metadata.json"], metadataBytes⟩]
      = [⟨["dicom", "a", "b.dcm"], dcm⟩, ⟨["metadata.json"], metadataBytes⟩] := rfl
  have hu1 : utf8Bytes (FileEntry.relPathStr ⟨["dicom", "a", "b.dcm"], dcm⟩ ++ "\n")
      = utf8Bytes "dicom/a/b.dcm\n" := rfl
  have hu2 : utf8Bytes (FileEntry.relPathStr ⟨["metadata.json"], metadataBytes⟩ ++ "\n")
      = utf8Bytes "metadata.json\n" := rfl
  simp only [computePayloadHash, hsort, hashStream, List.foldl_cons, List.foldl_nil, hu1, hu2]
  simp [List.append_assoc]

theorem end_to_end_package_amended_witness :
    isLikelyDicom ⟨["notes.txt"], [110]⟩ = false
      ∧ (fsHas (packageToDirectory (fun l => l)
            [⟨["a", "b.dcm"], List.replicate 100 0⟩, ⟨["notes.txt"], [110]⟩]
            c6Metadata [] []).2 ["payload", "dicom", "a", "b.dcm"] = true
        ∧ fsHas (packageToDirectory (fun l => l)
            [⟨["a", "b.dcm"], List.replicate 100 0⟩, ⟨["notes.txt"], [110]⟩]
            c6Metadata [] []).2 ["payload", "notes.txt"] = false
        ∧ fsHas (packageToDirectory (fun l => l)
            [⟨["a", "b.dcm"], List.replicate 100 0⟩, ⟨["notes.txt"], [110]⟩]
            c6Metadata [] []).2 ["payload", "dicom", "notes.txt"] = false
        ∧ (packageToDirectory (fun l => l)
            [⟨["a", "b.dcm"], List.replicate 100 0⟩, ⟨["notes.txt"], [110]⟩]
            c6Metadata [] []).1.payloadHash
          = some ("sha256:" ++ String.mk (hexOfBytes ((fun l => l)
              (utf8Bytes "dicom/a/b.dcm\n" ++ List.replicate 100 0
                ++ (utf8Bytes "metadata.json\n" ++ c6Metadata)))))) :=
  ⟨by decide,
    end_to_end_package_amended (fun l => l) (List.replicate 100 0) [110] c6Metadata [] []
      (by decide)⟩

/-- Claim C9 (against the spec-modelled `verifyPayloadHash`): the
operation returns ok, expected, computed and mode; a plaintext envelope
is verified by recomputing the digest directly with no key; a sealed
envelope requires the private key (its absence is an error), decrypts
into a scratch location, hashes the opened tree, and discards the
scratch payload regardless of whether the comparison succeeds — the
directory state after the call equals the state before it. -/
theorem verify_payload_hash_modes :
    (∀ (prims : CryptoPrims) (sha256 : List Nat → List Nat)
        (unpack : List Nat → Option (List FileEntry)) (security : Security)
        (tree : List FileEntry) (fs : FS) (expected : String),
        security.payloadHash = some expected →
        verifyPayloadHash prims sha256 unpack security (some tree) none none fs
          = (.ok ⟨computePayloadHash sha256 tree == expected, expected,
              computePayloadHash sha256 tree, "plain"⟩, fs))
      ∧ (∀ (prims : CryptoPrims) (sha256 : List Nat → List Nat)
          (unpack : List Nat → Option (List FileEntry)) (security : Security)
          (ct priv : List Nat) (fs : FS) (expected : String) (enc : EncMaterial)
          (buf : List Nat) (tree : List FileEntry),
          security.payloadHash = some expected →
          security.encryption = some enc →
          decryptToBuffer prims ct enc.ephemeralPublicKey enc.iv enc.authTag priv = .ok buf →
          unpack buf = some tree →
          (∀ e ∈ fs, e.1.head? ≠ some "payload.verify.tmp") →
          verifyPayloadHash prims sha256 unpack security none (some ct) (some priv) fs
            = (.ok ⟨computePayloadHash sha256 tree == expected, expected,
                computePayloadHash sha256 tree, "encrypted"⟩, fs))
      ∧ (∀ (prims : CryptoPrims) (sha256 : List Nat → List Nat)
          (unpack : List Nat → Option (List FileEntry)) (security : Security)
          (ct : List Nat) (fs : FS) (expected : String) (enc : EncMaterial),
          security.payloadHash = some expected →
          security.encryption = some enc →
          verifyPayloadHash prims sha256 unpack security none (some ct) none fs
            = (.error .missingRecipientKey, fs)) := by
  refine ⟨?_, ?_, ?_⟩
  · intro prims sha256 unpack security tree fs expected hhash
    simp only [verifyPayloadHash, hhash]
  · intro prims sha256 unpack security ct priv fs expected enc buf tree
      hhash henc hdec hun hscratch
    simp only [verifyPayloadHash, hhash, henc, hdec, hun]
    rw [fsRemoveDir_fsWriteTree, fsRemoveDir_eq_self fs _ hscratch]
  · intro prims sha256 unpack security ct fs expected enc hhash henc
    simp only [verifyPayloadHash, hhash, henc]

theorem verify_payload_hash_modes_witness :
    demoSecurity.payloadHash = some "sha256:stale"
      ∧ verifyPayloadHash toyPrims (fun _ => ([] : List Nat)) (fun _ => some demoTree)
          demoSecurity none (some [9]) (some (List.replicate 32 0)) []
        = (.ok ⟨computePayloadHash (fun _ => ([] : List Nat)) demoTree == "sha256:stale",
            "sha256:stale", computePayloadHash (fun _ => ([] : List Nat)) demoTree,
            "encrypted"⟩, []) :=
  ⟨rfl,
    verify_payload_hash_modes.2.1 toyPrims (fun _ => ([] : List Nat)) (fun _ => some demoTree)
      demoSecurity [9] (List.replicate 32 0) [] "sha256:stale"
      ⟨List.replicate 32 0, List.replicate 12 0, List.replicate 16 0⟩ [9] demoTree
      rfl rfl (by decide) rfl (by intro e he; cases he)⟩
